import Mathlib

/-!
Shallow embedding of the sentiment-classification pipeline in
src/gemini_classifier/gemini_classifier.py, together with proofs of the
behavioural claims about it.

Modelling conventions:
* The remote Gemini service is an oracle: for the client we model, per
  attempt, the post-decoding outcome of the call (blocked, exception,
  JSON-decode failure, a decoded non-array, or a decoded array).
* Durable storage for one output target is a `FileState`; the json
  library round trip is modelled at the level of a JSON document tree `J`.
* Sleeps are recorded as a trace of durations (in seconds) rather than
  performed.
* Console logging is modelled only where a claim depends on it.
-/

namespace GeminiClassifier

/-- A JSON document tree, restricted to the shapes the pipeline writes
(strings, arrays, objects).  Models the value `json.load` returns /
`json.dump` consumes. -/
inductive J where
  | str : String → J
  | arr : List J → J
  | obj : List (String × J) → J

/-- One entry of the "result" array inside a persisted Label Studio task. -/
structure ResultItem where
  from_name : String
  to_name : String
  type : String
  choices : List String
deriving DecidableEq

/-- One entry of the "predictions" array inside a persisted Label Studio task. -/
structure Prediction where
  model_version : String
  result : List ResultItem
deriving DecidableEq

/-- A persisted task: the dictionary produced by `format_for_label_studio`.
`text` is the value at key path data.text, the dedup key of the pipeline. -/
structure Task where
  text : String
  predictions : List Prediction
deriving DecidableEq

/-- Embeds `format_for_label_studio(comment_text, label, model_version)`:
builds the Label Studio record for one comment and its predicted label. -/
def format_for_label_studio (comment_text label model_version : String) : Task :=
  { text := comment_text
    predictions := [{ model_version := model_version
                      result := [{ from_name := "sentiment", to_name := "text"
                                   type := "choices", choices := [label] }] }] }

/-- All label strings occurring anywhere inside a task. -/
def Task.labels (t : Task) : List String :=
  (t.predictions.map (fun p => (p.result.map (fun r => r.choices)).flatten)).flatten

/-- Serialization of a result entry to its JSON object, following the literal
dictionary written by `format_for_label_studio`. -/
def ResultItem.toJson (r : ResultItem) : J :=
  .obj [("from_name", .str r.from_name), ("to_name", .str r.to_name),
        ("type", .str r.type),
        ("value", .obj [("choices", .arr (r.choices.map J.str))])]

/-- Serialization of a prediction entry to its JSON object. -/
def Prediction.toJson (p : Prediction) : J :=
  .obj [("model_version", .str p.model_version),
        ("result", .arr (p.result.map ResultItem.toJson))]

/-- Serialization of one task to its JSON object. -/
def Task.toJson (t : Task) : J :=
  .obj [("data", .obj [("text", .str t.text)]),
        ("predictions", .arr (t.predictions.map Prediction.toJson))]

/-- Serialization of a whole progress set: the JSON array `json.dump` writes. -/
def tasksToJson (ts : List Task) : J :=
  .arr (ts.map Task.toJson)

/-- Reads a JSON string node. -/
def J.asStr : J → Option String
  | .str s => some s
  | _ => none

/-- Interprets a JSON value as a result entry (the exact shape the pipeline
writes). -/
def ResultItem.fromJson : J → Option ResultItem
  | .obj [("from_name", .str fn), ("to_name", .str tn), ("type", .str ty),
          ("value", .obj [("choices", .arr cs)])] =>
      (cs.mapM J.asStr).map (fun choices =>
        { from_name := fn, to_name := tn, type := ty, choices := choices })
  | _ => none

/-- Interprets a JSON value as a prediction entry. -/
def Prediction.fromJson : J → Option Prediction
  | .obj [("model_version", .str mv), ("result", .arr rs)] =>
      (rs.mapM ResultItem.fromJson).map (fun result =>
        { model_version := mv, result := result })
  | _ => none

/-- Interprets a JSON value as one task. -/
def Task.fromJson : J → Option Task
  | .obj [("data", .obj [("text", .str s)]), ("predictions", .arr ps)] =>
      (ps.mapM Prediction.fromJson).map (fun preds =>
        { text := s, predictions := preds })
  | _ => none

/-- Interprets a JSON document as a whole progress set. -/
def tasksFromJson : J → Option (List Task)
  | .arr js => js.mapM Task.fromJson
  | _ => none

/-- State of the output target on durable storage.  `corrupt` models a file
that exists but on which `json.load` raises; `stored ts` models a
well-formed prior output holding the task list `ts` (a parseable file whose
document is not a task array makes the Python run crash later when it is
indexed, which no claim concerns). -/
inductive FileState where
  | missing : FileState
  | corrupt : String → FileState
  | stored : List Task → FileState
deriving DecidableEq

/-- Embeds `save_progress(tasks, path)`: `json.dump` overwrites the target
with the serialized task list (a successful write; an `IOError` is caught and
only logged by the source). -/
def save_progress (tasks : List Task) : FileState :=
  .stored tasks

/-- Embeds `load_progress(path)`.  Returns the loaded task list together with
a flag recording whether the could-not-parse warning was printed:
a missing file yields an empty list silently, an unreadable or unparseable
file yields an empty list with the warning, a well-formed file yields its
contents. -/
def load_progress : FileState → List Task × Bool
  | .missing => ([], false)
  | .corrupt _ => ([], true)
  | .stored ts => (ts, false)

/-- Outcome of one attempt of the retry loop in `get_sentiments_from_gemini`,
after the response has been stripped and `json.loads` applied:
the call was blocked (no candidates), an exception escaped, decoding failed,
the decoded payload was not a list, or it was a list of labels. -/
inductive AttemptResult where
  | blocked : String → AttemptResult
  | apiError : AttemptResult
  | decodeError : AttemptResult
  | nonArray : AttemptResult
  | array : List String → AttemptResult
deriving DecidableEq

/-- The acceptance test of one attempt: only a decoded array whose length
equals the batch size is returned; every other outcome falls through to a
retry. -/
def gemini_attempt (n : Nat) : AttemptResult → Option (List String)
  | .array xs => if xs.length = n then some xs else none
  | _ => none

/-- Retry loop of `get_sentiments_from_gemini`, unrolled over the remaining
fuel (3 attempts in total); `attempt` is the 0-based index of the current
attempt.  Returns the result and the trace of sleep durations: every failed
attempt is followed by `time.sleep(3 * (attempt + 1))` (the blocked branch
sleeps before its `continue`, the other failures reach the trailing sleep),
while a success returns immediately without sleeping. -/
def get_sentiments_go (oracle : Nat → AttemptResult) (n : Nat) :
    Nat → Nat → Option (List String) × List Nat
  | 0, _ => (none, [])
  | fuel + 1, attempt =>
    match gemini_attempt n (oracle attempt) with
    | some xs => (some xs, [])
    | none =>
      let p := get_sentiments_go oracle n fuel (attempt + 1)
      (p.1, 3 * (attempt + 1) :: p.2)

/-- Embeds `get_sentiments_from_gemini(comments_batch, model)` for a batch of
size `n`, with the remote service modelled by `oracle`: up to 3 attempts,
returning the first decoded array of length `n`, or `none` after all 3
attempts fail. -/
def get_sentiments_from_gemini (oracle : Nat → AttemptResult) (n : Nat) :
    Option (List String) × List Nat :=
  get_sentiments_go oracle n 3 0

/-- One row of the input CSV as far as the pipeline reads it: the Author
column and the Comment column (`none` models a missing, NaN, Comment cell). -/
structure Row where
  author : String
  comment : Option String
deriving DecidableEq

/-- Embeds the cleaning block of `analyze_comments`:
the dropna over the Comment column, dropping Comments equal to the placeholder
strings, and dropping rows whose Author is AutoModerator.  Only the Comment
column is used downstream, so the result is the ordered comment list. -/
def cleanRows (rows : List Row) : List String :=
  rows.filterMap (fun r =>
    match r.comment with
    | none => none
    | some c =>
      if c = "[deleted]" ∨ c = "[removed]" then none
      else if r.author = "AutoModerator" then none
      else some c)

/-- Python truthiness of an optional int argument: `None` and `0` are falsy. -/
def pyTruthy : Option Nat → Bool
  | none => false
  | some n => decide (n ≠ 0)

/-- Python `x or d` for an optional int `x`: yields `d` when `x` is falsy
(`None` or `0`), else the value of `x`. -/
def pyOrElse (x : Option Nat) (d : Nat) : Nat :=
  match x with
  | none => d
  | some n => if n = 0 then d else n

/-- Embeds step 3 of `analyze_comments`: when `start_from` or `end_at` was
given, slice to `df.iloc[start:end]` with `start = start_from or 0` and
`end = end_at or len(df)`. -/
def applyRange (start_from end_at : Option Nat) (df : List String) : List String :=
  if start_from.isSome ∨ end_at.isSome then
    (df.take (pyOrElse end_at df.length)).drop (pyOrElse start_from 0)
  else df

/-- Embeds the cap in `analyze_comments`:
`if limit and not (start_from or end_at): df = df.head(limit)`. -/
def applyLimit (limit start_from end_at : Option Nat) (df : List String) : List String :=
  if pyTruthy limit ∧ ¬(pyTruthy start_from ∨ pyTruthy end_at) then
    df.take (limit.getD 0)
  else df

/-- Fuel-indexed chunking; the fuel starts at the list length, which suffices
because every step consumes at least one element when `bs ≥ 1`. -/
def chunksGo (bs : Nat) : Nat → List String → List (List String)
  | 0, _ => []
  | _, [] => []
  | fuel + 1, l => l.take bs :: chunksGo bs fuel (l.drop bs)

/-- Embeds the batch decomposition
`for i in range(0, len(df), batch_size): batch_df = df.iloc[i:i + batch_size]`:
the contiguous chunks of `df` of size `bs` (the final one may be shorter).
The Python loop needs `bs ≥ 1` (`range` with step 0 raises); the argparse
default is 10. -/
def chunksOf (bs : Nat) (df : List String) : List (List String) :=
  chunksGo bs df.length df

/-- The canonical label set `valid_labels` of the loop body. -/
def valid_labels : List String := ["positive", "negative", "neutral"]

/-- Embeds the body run for a successful batch: zip the comments with the
returned sentiments, replace any sentiment outside `valid_labels` by
neutral, and format each pair as a Label Studio task. -/
def processBatch (model_name : String) (comments sentiments : List String) : List Task :=
  (comments.zip sentiments).map (fun cs =>
    format_for_label_studio cs.1
      (if cs.2 ∈ valid_labels then cs.2 else "neutral") model_name)

/-- Console warnings printed by the label-coercion step for a successful
batch.  The source replaces an out-of-taxonomy sentiment silently: the loop
body between the zip and the append contains no print statement, so the
trace is empty. -/
def processBatchWarnings (_comments _sentiments : List String) : List String :=
  []

/-- Result of the batch loop: the final in-memory task list, the file state
on exit (the loop body never calls `save_progress`, so it equals the file
state on entry), the batches submitted to the classifier in order, the
(in-memory tasks, file state) snapshot taken just after each completed
iteration, and whether the loop was left early. -/
structure LoopResult where
  tasks : List Task
  file : FileState
  submitted : List (List String)
  snapshots : List (List Task × FileState)
  interrupted : Bool
deriving DecidableEq

/-- Embeds the `for i in tqdm(range(...))` batch loop of `analyze_comments`.
`classify i b` is the outcome `get_sentiments_from_gemini` produces for the
`i`-th batch `b`; `stopAt = some j` models a `KeyboardInterrupt` (or any
unexpected exception) arriving at the start of iteration `j`, after the
first `j` batches completed.  On success the validated, formatted tasks are
appended to the accumulator; on failure nothing is appended and the run
continues with the next batch.  The file component is threaded through
untouched: the loop performs no persistence. -/
def runBatches (classify : Nat → List String → Option (List String))
    (stopAt : Option Nat) (model_name : String) :
    List (List String) → Nat → List Task → FileState → LoopResult
  | [], _, acc, file => ⟨acc, file, [], [], false⟩
  | b :: rest, i, acc, file =>
    if stopAt = some i then ⟨acc, file, [], [], true⟩
    else
      let acc' :=
        match classify i b with
        | some sentiments => acc ++ processBatch model_name b sentiments
        | none => acc
      let r := runBatches classify stopAt model_name rest (i + 1) acc' file
      ⟨r.tasks, r.file, b :: r.submitted, (acc', file) :: r.snapshots, r.interrupted⟩

/-- The tasks produced by a run over the given chunks (first chunk has index
`i`): the concatenation, in order, of the validated formatted tasks of each
successful batch, with a failed batch contributing nothing. -/
def producedTasks (classify : Nat → List String → Option (List String))
    (model_name : String) : List (List String) → Nat → List Task
  | [], _ => []
  | b :: rest, i =>
    (match classify i b with
     | some sentiments => processBatch model_name b sentiments
     | none => []) ++ producedTasks classify model_name rest (i + 1)

/-- The configuration of one run of `analyze_comments` (the credential and
model construction, which precede all work, are assumed to succeed: their
failure is a ConfigurationError outside every claim). -/
structure Config where
  rows : List Row
  prior : FileState
  batch_size : Nat
  model_name : String
  limit : Option Nat
  start_from : Option Nat
  end_at : Option Nat
deriving DecidableEq

/-- Observable trace of one run of `analyze_comments`. -/
structure RunTrace where
  loaded : List Task
  toProcess : List String
  submitted : List (List String)
  snapshots : List (List Task × FileState)
  finalTasks : List Task
  saves : List (List Task)
  finalFile : FileState
  interrupted : Bool
deriving DecidableEq

/-- Embeds `analyze_comments`: load prior progress, derive the processed
text set once, clean the source rows, slice to a user range, drop already
processed comments, cap when no range was given, and, when anything is left,
run the batch loop inside try/finally with a single `save_progress` in the
`finally` block.  When nothing is left the function returns before the
try/finally: no save happens. -/
def analyze_comments (classify : Nat → List String → Option (List String))
    (stopAt : Option Nat) (cfg : Config) : RunTrace :=
  let ls_tasks := (load_progress cfg.prior).1
  let processed_comments := ls_tasks.map Task.text
  let df0 := cleanRows cfg.rows
  let df1 := applyRange cfg.start_from cfg.end_at df0
  let df2 := df1.filter (fun c => decide (c ∉ processed_comments))
  let df := applyLimit cfg.limit cfg.start_from cfg.end_at df2
  if df.isEmpty then
    { loaded := ls_tasks, toProcess := df, submitted := [], snapshots := []
      finalTasks := ls_tasks, saves := [], finalFile := cfg.prior
      interrupted := false }
  else
    let r := runBatches classify stopAt cfg.model_name
      (chunksOf cfg.batch_size df) 0 ls_tasks cfg.prior
    { loaded := ls_tasks, toProcess := df, submitted := r.submitted
      snapshots := r.snapshots, finalTasks := r.tasks, saves := [r.tasks]
      finalFile := save_progress r.tasks, interrupted := r.interrupted }

/-! Helper lemmas. -/

theorem mapM_map_of_inverse {α β : Type} (f : β → Option α) (g : α → β)
    (h : ∀ x, f (g x) = some x) : ∀ l : List α, (l.map g).mapM f = some l := by
  intro l
  induction l with
  | nil => rfl
  | cons x xs ih =>
    simp only [List.map_cons, List.mapM_cons, h x, ih]
    rfl

theorem mapM_asStr_map_str (xs : List String) : (xs.map J.str).mapM J.asStr = some xs :=
  mapM_map_of_inverse J.asStr J.str (fun _ => rfl) xs

theorem resultItem_fromJson_toJson (r : ResultItem) :
    ResultItem.fromJson r.toJson = some r := by
  simp only [ResultItem.toJson, ResultItem.fromJson, mapM_asStr_map_str, Option.map_some]
  rfl

theorem prediction_fromJson_toJson (p : Prediction) :
    Prediction.fromJson p.toJson = some p := by
  simp only [Prediction.toJson, Prediction.fromJson,
    mapM_map_of_inverse ResultItem.fromJson ResultItem.toJson resultItem_fromJson_toJson,
    Option.map_some]
  rfl

theorem task_fromJson_toJson (t : Task) : Task.fromJson t.toJson = some t := by
  simp only [Task.toJson, Task.fromJson,
    mapM_map_of_inverse Prediction.fromJson Prediction.toJson prediction_fromJson_toJson,
    Option.map_some]
  rfl

theorem tasksFromJson_tasksToJson (ts : List Task) : tasksFromJson (tasksToJson ts) = some ts := by
  simp only [tasksToJson, tasksFromJson,
    mapM_map_of_inverse Task.fromJson Task.toJson task_fromJson_toJson]

/-! Claims C7 and C8: the Progress Store. -/

/-- C7: loading from a missing output target yields the empty progress set
without the parse warning; loading from an existing but unparseable target
yields the empty progress set with the parse warning (non-fatal, run starts
fresh); loading a well-formed target yields its contents. -/
theorem c7_load_progress (raw : String) (ts : List Task) :
    load_progress FileState.missing = ([], false)
  ∧ load_progress (FileState.corrupt raw) = ([], true)
  ∧ load_progress (FileState.stored ts) = (ts, false) :=
  ⟨rfl, rfl, rfl⟩

/-- C8: round-trip stability.  Saving a progress set and loading it back
yields an equal progress set, and the JSON document written for it
deserializes to exactly the original task list. -/
theorem c8_round_trip (ts : List Task) :
    (load_progress (save_progress ts)).1 = ts
  ∧ tasksFromJson (tasksToJson ts) = some ts :=
  ⟨rfl, tasksFromJson_tasksToJson ts⟩

/-! Claim C3: the Classifier Client. -/

theorem gemini_attempt_eq_some {n : Nat} {a : AttemptResult} {xs : List String}
    (h : gemini_attempt n a = some xs) : a = AttemptResult.array xs ∧ xs.length = n := by
  cases a with
  | array ys =>
    by_cases hl : ys.length = n
    · simp only [gemini_attempt, if_pos hl] at h
      obtain rfl : ys = xs := Option.some_injective _ h
      exact ⟨rfl, hl⟩
    · simp [gemini_attempt, if_neg hl] at h
  | blocked reason => simp [gemini_attempt] at h
  | apiError => simp [gemini_attempt] at h
  | decodeError => simp [gemini_attempt] at h
  | nonArray => simp [gemini_attempt] at h

/-- C3: the client makes at most 3 attempts (the outcome depends only on
attempts 0, 1, 2); a result is returned only when some attempt decoded to an
array of length exactly `n`; such an array at attempt 0 (resp. at attempt 1
after one failure) returns immediately with no (resp. one) backoff sleep,
short-circuiting the remaining attempts; and when all 3 attempts fail the
client returns `none` with the linear backoff trace 3, 6, 9 seconds. -/
theorem c3_classifier_client (oracle : Nat → AttemptResult) (n : Nat) :
    (∀ xs, (get_sentiments_from_gemini oracle n).1 = some xs →
        xs.length = n ∧ ∃ k, k < 3 ∧ oracle k = AttemptResult.array xs)
  ∧ (∀ xs, oracle 0 = AttemptResult.array xs → xs.length = n →
        get_sentiments_from_gemini oracle n = (some xs, []))
  ∧ (gemini_attempt n (oracle 0) = none →
      ∀ xs, oracle 1 = AttemptResult.array xs → xs.length = n →
        get_sentiments_from_gemini oracle n = (some xs, [3]))
  ∧ (gemini_attempt n (oracle 0) = none → gemini_attempt n (oracle 1) = none →
      gemini_attempt n (oracle 2) = none →
        get_sentiments_from_gemini oracle n = (none, [3, 6, 9]))
  ∧ (∀ g : Nat → AttemptResult, g 0 = oracle 0 → g 1 = oracle 1 → g 2 = oracle 2 →
        get_sentiments_from_gemini g n = get_sentiments_from_gemini oracle n) := by
  refine ⟨?_, ?_, ?_, ?_, ?_⟩
  · intro xs hxs
    simp only [get_sentiments_from_gemini, get_sentiments_go] at hxs
    cases h0 : gemini_attempt n (oracle 0) with
    | some ys =>
      simp only [h0] at hxs
      obtain rfl : ys = xs := Option.some_injective _ hxs
      obtain ⟨ha, hl⟩ := gemini_attempt_eq_some h0
      exact ⟨hl, 0, by omega, ha⟩
    | none =>
      simp only [h0] at hxs
      cases h1 : gemini_attempt n (oracle 1) with
      | some ys =>
        simp only [h1] at hxs
        obtain rfl : ys = xs := Option.some_injective _ hxs
        obtain ⟨ha, hl⟩ := gemini_attempt_eq_some h1
        exact ⟨hl, 1, by omega, ha⟩
      | none =>
        simp only [h1] at hxs
        cases h2 : gemini_attempt n (oracle 2) with
        | some ys =>
          simp only [h2] at hxs
          obtain rfl : ys = xs := Option.some_injective _ hxs
          obtain ⟨ha, hl⟩ := gemini_attempt_eq_some h2
          exact ⟨hl, 2, by omega, ha⟩
        | none => simp [h2] at hxs
  · intro xs h0 hl
    simp [get_sentiments_from_gemini, get_sentiments_go, gemini_attempt, h0, hl]
  · intro h0 xs h1 hl
    simp only [get_sentiments_from_gemini, get_sentiments_go, h0]
    simp [gemini_attempt, h1, hl]
  · intro h0 h1 h2
    simp [get_sentiments_from_gemini, get_sentiments_go, h0, h1, h2]
  · intro g hg0 hg1 hg2
    simp [get_sentiments_from_gemini, get_sentiments_go, hg0, hg1, hg2]

/-- Witness for C3: an oracle failing all 3 attempts yields `none` with the
backoff trace 3, 6, 9. -/
theorem c3_classifier_client_witness :
    get_sentiments_from_gemini (fun _ => AttemptResult.decodeError) 2 = (none, [3, 6, 9]) :=
  (c3_classifier_client (fun _ => AttemptResult.decodeError) 2).2.2.2.1 rfl rfl rfl

/-! Lemmas about the batch loop and the orchestrator. -/

theorem chunksGo_mem_subset (bs : Nat) : ∀ (fuel : Nat) (l b : List String),
    b ∈ chunksGo bs fuel l → ∀ c ∈ b, c ∈ l := by
  intro fuel
  induction fuel with
  | zero => intro l b hb; simp [chunksGo] at hb
  | succ n ih =>
    intro l b hb c hc
    cases l with
    | nil => simp [chunksGo] at hb
    | cons x xs =>
      simp only [chunksGo] at hb
      rcases List.mem_cons.mp hb with h | h
      · subst h; exact List.take_subset _ _ hc
      · exact List.drop_subset _ _ (ih _ b h c hc)

theorem chunksOf_mem_subset (bs : Nat) (l b : List String) (hb : b ∈ chunksOf bs l) :
    ∀ c ∈ b, c ∈ l :=
  chunksGo_mem_subset bs l.length l b hb

theorem runBatches_snapshots_file (classify : Nat → List String → Option (List String))
    (stopAt : Option Nat) (mn : String) :
    ∀ (chunks : List (List String)) (i : Nat) (acc : List Task) (f : FileState),
      ∀ s ∈ (runBatches classify stopAt mn chunks i acc f).snapshots, s.2 = f := by
  intro chunks
  induction chunks with
  | nil => intro i acc f s hs; simp [runBatches] at hs
  | cons b rest ih =>
    intro i acc f s hs
    simp only [runBatches] at hs
    by_cases h : stopAt = some i
    · simp [if_pos h] at hs
    · simp only [if_neg h] at hs
      rcases List.mem_cons.mp hs with h1 | h1
      · subst h1; rfl
      · exact ih (i + 1) _ f s h1

theorem runBatches_submitted_subset (classify : Nat → List String → Option (List String))
    (stopAt : Option Nat) (mn : String) :
    ∀ (chunks : List (List String)) (i : Nat) (acc : List Task) (f : FileState),
      ∀ b ∈ (runBatches classify stopAt mn chunks i acc f).submitted, b ∈ chunks := by
  intro chunks
  induction chunks with
  | nil => intro i acc f b hb; simp [runBatches] at hb
  | cons a rest ih =>
    intro i acc f b hb
    simp only [runBatches] at hb
    by_cases h : stopAt = some i
    · simp [if_pos h] at hb
    · simp only [if_neg h] at hb
      rcases List.mem_cons.mp hb with h1 | h1
      · subst h1; exact List.mem_cons_self _ _
      · exact List.mem_cons_of_mem _ (ih (i + 1) _ f b h1)

theorem runBatches_none_submitted (classify : Nat → List String → Option (List String))
    (mn : String) :
    ∀ (chunks : List (List String)) (i : Nat) (acc : List Task) (f : FileState),
      (runBatches classify none mn chunks i acc f).submitted = chunks := by
  intro chunks
  induction chunks with
  | nil => intro i acc f; rfl
  | cons b rest ih =>
    intro i acc f
    simp only [runBatches, if_neg (by simp : ¬(none : Option Nat) = some i)]
    rw [ih (i + 1)]

theorem runBatches_none_tasks (classify : Nat → List String → Option (List String))
    (mn : String) :
    ∀ (chunks : List (List String)) (i : Nat) (acc : List Task) (f : FileState),
      (runBatches classify none mn chunks i acc f).tasks =
        acc ++ producedTasks classify mn chunks i := by
  intro chunks
  induction chunks with
  | nil => intro i acc f; simp [runBatches, producedTasks]
  | cons b rest ih =>
    intro i acc f
    simp only [runBatches, if_neg (by simp : ¬(none : Option Nat) = some i),
      producedTasks]
    rw [ih (i + 1)]
    cases classify i b <;> simp

theorem runBatches_stop_tasks (classify : Nat → List String → Option (List String))
    (mn : String) (N : Nat) :
    ∀ (chunks : List (List String)) (i : Nat) (acc : List Task) (f : FileState),
      i ≤ N →
      (runBatches classify (some N) mn chunks i acc f).tasks =
        acc ++ producedTasks classify mn (chunks.take (N - i)) i := by
  intro chunks
  induction chunks with
  | nil => intro i acc f _; simp [runBatches, producedTasks]
  | cons b rest ih =>
    intro i acc f hiN
    by_cases h : N = i
    · subst h
      simp [runBatches, Nat.sub_self, producedTasks]
    · have hsub : N - i = (N - (i + 1)) + 1 := by omega
      rw [hsub]
      cases hc : classify i b with
      | some ss =>
        simp only [runBatches, hc, Option.some.injEq]
        rw [if_neg h]
        simp only [List.take_succ_cons, producedTasks, hc,
          ih (i + 1) (acc ++ processBatch mn b ss) f (by omega)]
        simp [List.append_assoc]
      | none =>
        simp only [runBatches, hc, Option.some.injEq]
        rw [if_neg h]
        simp only [List.take_succ_cons, producedTasks, hc, ih (i + 1) acc f (by omega)]
        simp

theorem runBatches_tasks_mem (classify : Nat → List String → Option (List String))
    (stopAt : Option Nat) (mn : String) :
    ∀ (chunks : List (List String)) (i : Nat) (acc : List Task) (f : FileState),
      ∀ t ∈ (runBatches classify stopAt mn chunks i acc f).tasks,
        t ∈ acc ∨ ∃ b ss, t ∈ processBatch mn b ss := by
  intro chunks
  induction chunks with
  | nil => intro i acc f t ht; exact Or.inl ht
  | cons b rest ih =>
    intro i acc f t ht
    simp only [runBatches] at ht
    by_cases h : stopAt = some i
    · rw [if_pos h] at ht; exact Or.inl ht
    · rw [if_neg h] at ht
      rcases ih (i + 1) _ f t ht with h1 | h1
      · cases hc : classify i b with
        | some ss =>
          rw [hc] at h1
          rcases List.mem_append.mp h1 with h2 | h2
          · exact Or.inl h2
          · exact Or.inr ⟨b, ss, h2⟩
        | none => rw [hc] at h1; exact Or.inl h1
      · exact Or.inr h1

/-- The comments still to be processed at the start of the batch loop:
cleaned source, sliced to the user range, deduplicated against the loaded
progress, and capped. -/
def pendingComments (cfg : Config) : List String :=
  applyLimit cfg.limit cfg.start_from cfg.end_at
    ((applyRange cfg.start_from cfg.end_at (cleanRows cfg.rows)).filter
      (fun c => decide (c ∉ ((load_progress cfg.prior).1.map Task.text))))

/-- The batch loop a nonempty run executes. -/
def loopOf (classify : Nat → List String → Option (List String))
    (stopAt : Option Nat) (cfg : Config) : LoopResult :=
  runBatches classify stopAt cfg.model_name
    (chunksOf cfg.batch_size (pendingComments cfg)) 0
    (load_progress cfg.prior).1 cfg.prior

theorem analyze_eq_of_empty (classify : Nat → List String → Option (List String))
    (stopAt : Option Nat) (cfg : Config) (hp : pendingComments cfg = []) :
    analyze_comments classify stopAt cfg =
      { loaded := (load_progress cfg.prior).1, toProcess := pendingComments cfg
        submitted := [], snapshots := [], finalTasks := (load_progress cfg.prior).1
        saves := [], finalFile := cfg.prior, interrupted := false } := by
  simp only [pendingComments] at hp
  simp only [analyze_comments, pendingComments]
  split
  · rfl
  · next hemp =>
    rw [hp] at hemp
    exact absurd rfl hemp

theorem analyze_eq_of_nonempty (classify : Nat → List String → Option (List String))
    (stopAt : Option Nat) (cfg : Config) (hp : pendingComments cfg ≠ []) :
    analyze_comments classify stopAt cfg =
      { loaded := (load_progress cfg.prior).1, toProcess := pendingComments cfg
        submitted := (loopOf classify stopAt cfg).submitted
        snapshots := (loopOf classify stopAt cfg).snapshots
        finalTasks := (loopOf classify stopAt cfg).tasks
        saves := [(loopOf classify stopAt cfg).tasks]
        finalFile := save_progress (loopOf classify stopAt cfg).tasks
        interrupted := (loopOf classify stopAt cfg).interrupted } := by
  simp only [pendingComments] at hp
  simp only [analyze_comments, pendingComments, loopOf]
  split
  · next hemp =>
    rw [List.isEmpty_eq_true] at hemp
    exact (hp hemp).elim
  · rfl

/-! Concrete runs used by counterexamples and witnesses. -/

/-- A classifier oracle that labels every comment of every batch positive. -/
def classifyPositive : Nat → List String → Option (List String) :=
  fun _ b => some (b.map (fun _ => "positive"))

/-- A classifier oracle for which the first batch exhausts its retries and
every later batch succeeds. -/
def classifyFailFirst : Nat → List String → Option (List String) :=
  fun i b => if i = 0 then none else some (b.map (fun _ => "positive"))

/-- A fresh two-comment source processed in batches of one. -/
def cfgTwo : Config :=
  { rows := [{ author := "a", comment := some "hello" },
             { author := "b", comment := some "world" }]
    prior := FileState.missing, batch_size := 1, model_name := "m"
    limit := none, start_from := none, end_at := none }

/-! Claim C1: per-batch persistence. -/

/-- C1 counterexample: in a fresh two-batch run whose first batch succeeds,
the output target still holds its pre-run content (no file at all) right
after the first iteration of the batch loop, while the in-memory Progress
Set already holds the task of that batch — so the output target does not equal
the in-memory Progress Set after each iteration. -/
theorem c1_counterexample :
    (analyze_comments classifyPositive none cfgTwo).snapshots.head? =
      some ([format_for_label_studio "hello" "positive" "m"], FileState.missing)
  ∧ FileState.missing ≠
      FileState.stored [format_for_label_studio "hello" "positive" "m"] := by
  constructor
  · rfl
  · decide

/-- C1 amended: the batch loop performs no persistence at all.  After every
iteration the output target still holds the pre-run content, and the only
save of a run that enters the loop is the single one at loop exit (a run
that never enters the loop saves nothing). -/
theorem c1_amended (classify : Nat → List String → Option (List String))
    (stopAt : Option Nat) (cfg : Config) :
    (∀ s ∈ (analyze_comments classify stopAt cfg).snapshots, s.2 = cfg.prior)
  ∧ ((analyze_comments classify stopAt cfg).toProcess = [] →
      (analyze_comments classify stopAt cfg).saves = [])
  ∧ ((analyze_comments classify stopAt cfg).toProcess ≠ [] →
      (analyze_comments classify stopAt cfg).saves =
        [(analyze_comments classify stopAt cfg).finalTasks]) := by
  by_cases hp : pendingComments cfg = []
  · rw [analyze_eq_of_empty classify stopAt cfg hp]
    refine ⟨?_, fun _ => rfl, fun hne => (hne hp).elim⟩
    intro s hs
    simp at hs
  · rw [analyze_eq_of_nonempty classify stopAt cfg hp]
    refine ⟨?_, fun he => (hp he).elim, fun _ => rfl⟩
    intro s hs
    exact runBatches_snapshots_file classify stopAt cfg.model_name _ 0 _ cfg.prior s hs

/-- Witness for C1 amended: the snapshot after the first iteration of the
concrete run still carries the pre-run (missing) file state. -/
theorem c1_amended_witness :
    ([format_for_label_studio "hello" "positive" "m"], FileState.missing) ∈
      (analyze_comments classifyPositive none cfgTwo).snapshots
  ∧ FileState.missing = cfgTwo.prior :=
  ⟨by decide,
   (c1_amended classifyPositive none cfgTwo).1
     ([format_for_label_studio "hello" "positive" "m"], FileState.missing) (by decide)⟩

/-! Claim C2: persistence on every exit from the batch loop. -/

/-- C2: every run that enters the batch loop performs exactly one save, at
loop exit, whose payload is the final in-memory Progress Set, and the output
target afterwards holds exactly that set; when the run is cancelled at the
start of iteration N (after N batches completed), the persisted set is the
loaded set extended by exactly the tasks the first N batches produced. -/
theorem c2_exit_persistence (classify : Nat → List String → Option (List String))
    (stopAt : Option Nat) (cfg : Config)
    (h : (analyze_comments classify stopAt cfg).toProcess ≠ []) :
    (analyze_comments classify stopAt cfg).saves =
      [(analyze_comments classify stopAt cfg).finalTasks]
  ∧ (analyze_comments classify stopAt cfg).finalFile =
      save_progress (analyze_comments classify stopAt cfg).finalTasks
  ∧ ∀ N, stopAt = some N →
      (analyze_comments classify stopAt cfg).finalTasks =
        (analyze_comments classify stopAt cfg).loaded ++
          producedTasks classify cfg.model_name
            ((chunksOf cfg.batch_size
              (analyze_comments classify stopAt cfg).toProcess).take N) 0 := by
  have hp : pendingComments cfg ≠ [] := by
    intro he
    exact h (by rw [analyze_eq_of_empty classify stopAt cfg he]; exact he)
  rw [analyze_eq_of_nonempty classify stopAt cfg hp]
  refine ⟨rfl, rfl, ?_⟩
  intro N hN
  subst hN
  show (loopOf classify (some N) cfg).tasks = _
  rw [loopOf, runBatches_stop_tasks classify cfg.model_name N _ 0 _ cfg.prior (Nat.zero_le N)]
  simp

/-- Witness for C2: a run over two one-comment batches cancelled at the start
of iteration 1 persists exactly the loaded set plus the task of batch 0. -/
theorem c2_exit_persistence_witness :
    (analyze_comments classifyPositive (some 1) cfgTwo).toProcess ≠ []
  ∧ (analyze_comments classifyPositive (some 1) cfgTwo).saves =
      [(analyze_comments classifyPositive (some 1) cfgTwo).finalTasks]
  ∧ (analyze_comments classifyPositive (some 1) cfgTwo).finalTasks =
      (analyze_comments classifyPositive (some 1) cfgTwo).loaded ++
        producedTasks classifyPositive cfgTwo.model_name
          ((chunksOf cfgTwo.batch_size
            (analyze_comments classifyPositive (some 1) cfgTwo).toProcess).take 1) 0 :=
  ⟨by decide,
   (c2_exit_persistence classifyPositive (some 1) cfgTwo (by decide)).1,
   (c2_exit_persistence classifyPositive (some 1) cfgTwo (by decide)).2.2 1 rfl⟩

/-! Claim C6: a failed batch is skipped, not fatal. -/

/-- C6: with no cancellation, every batch is submitted to the classifier
exactly once, in order, whatever the outcomes (so a batch whose retries are
exhausted neither halts the following batches nor gets resubmitted in the
run); the final Progress Set is the loaded set plus the concatenation of the
per-batch productions, where a batch whose classification returned `none`
contributes nothing. -/
theorem c6_failed_batch (classify : Nat → List String → Option (List String))
    (cfg : Config) :
    (analyze_comments classify none cfg).submitted =
      chunksOf cfg.batch_size (analyze_comments classify none cfg).toProcess
  ∧ (analyze_comments classify none cfg).finalTasks =
      (analyze_comments classify none cfg).loaded ++
        producedTasks classify cfg.model_name
          (chunksOf cfg.batch_size (analyze_comments classify none cfg).toProcess) 0
  ∧ (∀ i b rest, classify i b = none →
      producedTasks classify cfg.model_name (b :: rest) i =
        producedTasks classify cfg.model_name rest (i + 1)) := by
  refine ⟨?_, ?_, ?_⟩
  · by_cases hp : pendingComments cfg = []
    · rw [analyze_eq_of_empty classify none cfg hp, hp]
      rfl
    · rw [analyze_eq_of_nonempty classify none cfg hp]
      exact runBatches_none_submitted classify cfg.model_name _ 0 _ cfg.prior
  · by_cases hp : pendingComments cfg = []
    · rw [analyze_eq_of_empty classify none cfg hp, hp]
      simp [chunksOf, chunksGo, producedTasks]
    · rw [analyze_eq_of_nonempty classify none cfg hp]
      exact runBatches_none_tasks classify cfg.model_name _ 0 _ cfg.prior
  · intro i b rest hc
    simp [producedTasks, hc]

/-- Witness for C6: a run whose first batch fails still submits and labels
the second batch, with the failed batch contributing nothing. -/
theorem c6_failed_batch_witness :
    classifyFailFirst 0 ["hello"] = none
  ∧ producedTasks classifyFailFirst cfgTwo.model_name [["hello"], ["world"]] 0 =
      producedTasks classifyFailFirst cfgTwo.model_name [["world"]] 1 :=
  ⟨rfl, (c6_failed_batch classifyFailFirst cfgTwo).2.2 0 ["hello"] [["world"]] rfl⟩

/-! Claim C5: label validation. -/

/-- Modelled from the spec (4.2 Label Validator, coercion behaviour only):
a raw value that is exactly one of the three canonical strings is returned
unchanged and any other value is replaced by neutral. -/
def spec_validate (raw : String) : String :=
  if raw ∈ ["positive", "negative", "neutral"] then raw else "neutral"

theorem processBatch_labels (mn : String) (cs ss : List String) :
    ∀ t ∈ processBatch mn cs ss, ∀ l ∈ t.labels, l ∈ valid_labels := by
  intro t ht l hl
  simp only [processBatch, List.mem_map] at ht
  obtain ⟨p, _, rfl⟩ := ht
  simp only [format_for_label_studio, Task.labels, List.map_cons, List.map_nil,
    List.flatten_cons, List.flatten_nil, List.append_nil, List.mem_singleton] at hl
  subst hl
  by_cases hv : p.2 ∈ valid_labels
  · simp only [if_pos hv]
    exact hv
  · simp only [if_neg hv]
    decide

/-- C5 counterexample: an out-of-taxonomy raw label is replaced by neutral,
but no warning naming the invalid value is logged — the coercion in the
source is silent, so the logged-warning part of the claim fails. -/
theorem c5_counterexample :
    processBatch "m" ["x"] ["bogus"] = [format_for_label_studio "x" "neutral" "m"]
  ∧ processBatchWarnings ["x"] ["bogus"] = [] :=
  ⟨by decide, rfl⟩

/-- C5 amended: every task a run appends to the Progress Set (that is, every
final task other than the loaded ones) carries only labels from the fixed
3-element set, and item by item a successful batch formats each comment with
exactly the output of the spec validator — canonical raw labels kept, all others
silently replaced by neutral, never passed through verbatim. -/
theorem c5_amended (classify : Nat → List String → Option (List String))
    (stopAt : Option Nat) (cfg : Config) :
    (∀ t ∈ (analyze_comments classify stopAt cfg).finalTasks,
        t ∉ (analyze_comments classify stopAt cfg).loaded →
          ∀ l ∈ t.labels, l ∈ valid_labels)
  ∧ (∀ (mn : String) (cs ss : List String) (i : Nat),
        (processBatch mn cs ss)[i]? =
          ((cs.zip ss)[i]?).map
            (fun p => format_for_label_studio p.1 (spec_validate p.2) mn)) := by
  constructor
  · intro t ht hnl
    by_cases hp : pendingComments cfg = []
    · rw [analyze_eq_of_empty classify stopAt cfg hp] at ht hnl
      exact (hnl ht).elim
    · rw [analyze_eq_of_nonempty classify stopAt cfg hp] at ht hnl
      rcases runBatches_tasks_mem classify stopAt cfg.model_name _ 0 _ cfg.prior t ht with
        h1 | ⟨b, ss, h1⟩
      · exact (hnl h1).elim
      · exact processBatch_labels cfg.model_name b ss t h1
  · intro mn cs ss i
    simp only [processBatch, List.getElem?_map]
    rfl

/-- A classifier oracle answering an out-of-taxonomy label for every item. -/
def classifyBogus : Nat → List String → Option (List String) :=
  fun _ b => some (b.map (fun _ => "bogus"))

/-- A fresh one-comment source. -/
def cfgOne : Config :=
  { rows := [{ author := "a", comment := some "x" }]
    prior := FileState.missing, batch_size := 1, model_name := "m"
    limit := none, start_from := none, end_at := none }

/-- Witness for C5 amended: the task appended for a raw label outside the
taxonomy is new, and its label lies in the canonical set. -/
theorem c5_amended_witness :
    format_for_label_studio "x" "neutral" "m" ∈
      (analyze_comments classifyBogus none cfgOne).finalTasks
  ∧ "neutral" ∈ valid_labels :=
  ⟨by decide,
   (c5_amended classifyBogus none cfgOne).1
     (format_for_label_studio "x" "neutral" "m") (by decide) (by decide)
     "neutral" (by decide)⟩

/-! Claim C9: the cap versus a user-specified range. -/

theorem analyze_toProcess (classify : Nat → List String → Option (List String))
    (stopAt : Option Nat) (cfg : Config) :
    (analyze_comments classify stopAt cfg).toProcess = pendingComments cfg := by
  by_cases hp : pendingComments cfg = []
  · rw [analyze_eq_of_empty classify stopAt cfg hp]
  · rw [analyze_eq_of_nonempty classify stopAt cfg hp]

/-- A two-comment source with an explicitly given start index of 0 and a cap
of 1. -/
def cfgRange0 : Config :=
  { rows := [{ author := "a", comment := some "t1" },
             { author := "b", comment := some "t2" }]
    prior := FileState.missing, batch_size := 1, model_name := "m"
    limit := some 1, start_from := some 0, end_at := none }

/-- C9 counterexample: with an explicitly given start index of 0 the cap is
still applied — the run with the cap processes only one of the two records,
the run without it processes both, so the claim that any explicitly given
range value disables the cap fails. -/
theorem c9_counterexample :
    (analyze_comments classifyPositive none cfgRange0).toProcess = ["t1"]
  ∧ (analyze_comments classifyPositive none
        { cfgRange0 with limit := none }).toProcess = ["t1", "t2"] :=
  ⟨by decide, by decide⟩

/-- C9 amended: the cap has no effect on which records are processed
whenever the given start or end index is truthy in the Python sense
(present and nonzero); an explicitly given 0 does not suppress the cap. -/
theorem c9_amended (classify : Nat → List String → Option (List String))
    (stopAt : Option Nat) (cfg : Config) (lim : Option Nat)
    (h : pyTruthy cfg.start_from = true ∨ pyTruthy cfg.end_at = true) :
    (analyze_comments classify stopAt cfg).toProcess =
      (analyze_comments classify stopAt { cfg with limit := lim }).toProcess := by
  rcases h with h | h
  · simp [analyze_toProcess, pendingComments, applyLimit, h]
  · simp [analyze_toProcess, pendingComments, applyLimit, h]

/-- The same source with a nonzero start index and a cap of 1. -/
def cfgRangeNZ : Config :=
  { rows := [{ author := "a", comment := some "t1" },
             { author := "b", comment := some "t2" }]
    prior := FileState.missing, batch_size := 1, model_name := "m"
    limit := some 1, start_from := some 1, end_at := none }

/-- Witness for C9 amended: with a nonzero start index, dropping the cap does
not change the records processed. -/
theorem c9_amended_witness :
    (pyTruthy cfgRangeNZ.start_from = true ∨ pyTruthy cfgRangeNZ.end_at = true)
  ∧ (analyze_comments classifyPositive none cfgRangeNZ).toProcess =
      (analyze_comments classifyPositive none
        { cfgRangeNZ with limit := none }).toProcess :=
  ⟨Or.inl (by decide),
   c9_amended classifyPositive none cfgRangeNZ none (Or.inl (by decide))⟩

/-! Claim C4: resume deduplication. -/

theorem applyLimit_subset (lim sf ea : Option Nat) (df : List String) :
    ∀ c ∈ applyLimit lim sf ea df, c ∈ df := by
  intro c hc
  unfold applyLimit at hc
  split at hc
  · exact List.take_subset _ _ hc
  · exact hc

theorem mem_pendingComments_not_loaded (cfg : Config) (c : String)
    (hc : c ∈ pendingComments cfg) :
    c ∉ ((load_progress cfg.prior).1.map Task.text) := by
  simp only [pendingComments] at hc
  have h2 := applyLimit_subset cfg.limit cfg.start_from cfg.end_at _ c hc
  have h3 := (List.mem_filter.mp h2).2
  simpa using h3

/-- C4: no comment submitted to the classifier in any run has a text already
present in the loaded Progress Set; and in the concrete resume scenario —
prior output holding one task for `T1`, fresh source with texts `T1` and
`T2` — only `T2` is submitted and the final Progress Set holds exactly one
task for `T1` and one for `T2`. -/
theorem c4_resume_dedup :
    (∀ (classify : Nat → List String → Option (List String)) (stopAt : Option Nat)
        (cfg : Config), ∀ b ∈ (analyze_comments classify stopAt cfg).submitted,
        ∀ c ∈ b, c ∉ ((analyze_comments classify stopAt cfg).loaded.map Task.text))
  ∧ (∀ (classify : Nat → List String → Option (List String))
        (T1 T2 lab mn a1 a2 : String) (bs : Nat) (prior : Task),
        prior.text = T1 → T2 ≠ T1 →
        T1 ≠ "[deleted]" → T1 ≠ "[removed]" → T2 ≠ "[deleted]" → T2 ≠ "[removed]" →
        a1 ≠ "AutoModerator" → a2 ≠ "AutoModerator" → 1 ≤ bs →
        classify 0 [T2] = some [lab] →
        (analyze_comments classify none
            { rows := [{ author := a1, comment := some T1 },
                       { author := a2, comment := some T2 }]
              prior := FileState.stored [prior], batch_size := bs, model_name := mn
              limit := none, start_from := none, end_at := none }).submitted = [[T2]]
      ∧ ((analyze_comments classify none
            { rows := [{ author := a1, comment := some T1 },
                       { author := a2, comment := some T2 }]
              prior := FileState.stored [prior], batch_size := bs, model_name := mn
              limit := none, start_from := none, end_at := none }).finalTasks.filter
            (fun x => decide (x.text = T1))).length = 1
      ∧ ((analyze_comments classify none
            { rows := [{ author := a1, comment := some T1 },
                       { author := a2, comment := some T2 }]
              prior := FileState.stored [prior], batch_size := bs, model_name := mn
              limit := none, start_from := none, end_at := none }).finalTasks.filter
            (fun x => decide (x.text = T2))).length = 1) := by
  constructor
  · intro classify stopAt cfg b hb c hcb
    by_cases hp : pendingComments cfg = []
    · rw [analyze_eq_of_empty classify stopAt cfg hp] at hb
      simp at hb
    · rw [analyze_eq_of_nonempty classify stopAt cfg hp] at hb ⊢
      have hbc := runBatches_submitted_subset classify stopAt cfg.model_name _ 0 _
        cfg.prior b hb
      have hcp := chunksOf_mem_subset cfg.batch_size _ b hbc c hcb
      exact mem_pendingComments_not_loaded cfg c hcp
  · intro classify T1 T2 lab mn a1 a2 bs prior hT1 hne hd1 hr1 hd2 hr2 ha1 ha2 hbs hc
    have htake : [T2].take bs = [T2] := List.take_of_length_le (by simpa using hbs)
    have hdrop : [T2].drop bs = [] := List.drop_eq_nil_of_le (by simpa using hbs)
    refine ⟨?_, ?_, ?_⟩ <;>
      simp [analyze_comments, cleanRows, applyRange, applyLimit, pyTruthy,
        load_progress, chunksOf, chunksGo, runBatches, processBatch,
        save_progress, format_for_label_studio, htake, hdrop,
        hd1, hr1, hd2, hr2, ha1, ha2, hT1, hne, Ne.symm hne, hc]

/-- Witness for C4: the concrete resume scenario with texts t1 and t2, a
prior task for t1, and a batch size of 1 submits only t2. -/
theorem c4_resume_dedup_witness :
    (format_for_label_studio "t1" "positive" "m").text = "t1"
  ∧ (analyze_comments classifyPositive none
        { rows := [{ author := "a", comment := some "t1" },
                   { author := "b", comment := some "t2" }]
          prior := FileState.stored [format_for_label_studio "t1" "positive" "m"]
          batch_size := 1, model_name := "m"
          limit := none, start_from := none, end_at := none }).submitted = [["t2"]] :=
  ⟨rfl,
   (c4_resume_dedup.2 classifyPositive "t1" "t2" "positive" "m" "a" "b" 1
      (format_for_label_studio "t1" "positive" "m") rfl (by decide) (by decide)
      (by decide) (by decide) (by decide) (by decide) (by decide) (by decide) rfl).1⟩

/-! Claim C10: the dedup key-space is fixed at startup. -/

/-- C10: the deduplication key-space is the loaded Progress Set's text set
and is not extended during the run — two fresh source records with the same
text are both submitted (in separate batches of size 1), each successful one
appends its own task, and the persisted set gains two tasks with that text
in a single run. -/
theorem c10_duplicate_fresh_texts (classify : Nat → List String → Option (List String))
    (a1 a2 t lab1 lab2 mn : String) (prior_ts : List Task)
    (hfresh : t ∉ prior_ts.map Task.text)
    (hd : t ≠ "[deleted]") (hr : t ≠ "[removed]")
    (ha1 : a1 ≠ "AutoModerator") (ha2 : a2 ≠ "AutoModerator")
    (hc0 : classify 0 [t] = some [lab1]) (hc1 : classify 1 [t] = some [lab2]) :
    (analyze_comments classify none
        { rows := [{ author := a1, comment := some t },
                   { author := a2, comment := some t }]
          prior := FileState.stored prior_ts, batch_size := 1, model_name := mn
          limit := none, start_from := none, end_at := none }).submitted = [[t], [t]]
  ∧ (analyze_comments classify none
        { rows := [{ author := a1, comment := some t },
                   { author := a2, comment := some t }]
          prior := FileState.stored prior_ts, batch_size := 1, model_name := mn
          limit := none, start_from := none, end_at := none }).finalTasks =
      prior_ts ++ processBatch mn [t] [lab1] ++ processBatch mn [t] [lab2]
  ∧ ((analyze_comments classify none
        { rows := [{ author := a1, comment := some t },
                   { author := a2, comment := some t }]
          prior := FileState.stored prior_ts, batch_size := 1, model_name := mn
          limit := none, start_from := none, end_at := none }).finalTasks.filter
        (fun x => decide (x.text = t))).length =
      (prior_ts.filter (fun x => decide (x.text = t))).length + 2 := by
  have hfresh' : ∀ x ∈ prior_ts, ¬x.text = t := by simpa using hfresh
  have hall : (∀ x ∈ prior_ts, ¬x.text = t) = True := eq_true hfresh'
  have hex : (∃ x ∈ prior_ts, x.text = t) = False :=
    eq_false (by simpa using hfresh')
  refine ⟨?_, ?_, ?_⟩ <;>
    simp [analyze_comments, cleanRows, applyRange, applyLimit, pyTruthy, load_progress,
      chunksOf, chunksGo, runBatches, processBatch, save_progress,
      format_for_label_studio, hd, hr, ha1, ha2, hall, hex, hfresh', hc0, hc1]

/-- A classifier oracle labelling the first batch positive and every later
batch negative. -/
def classifyByIndex : Nat → List String → Option (List String) :=
  fun i b => if i = 0 then some (b.map (fun _ => "positive"))
             else some (b.map (fun _ => "negative"))

/-- Witness for C10: a fresh source with the same text twice submits both
copies. -/
theorem c10_duplicate_fresh_texts_witness :
    "dup" ∉ ([] : List Task).map Task.text
  ∧ (analyze_comments classifyByIndex none
        { rows := [{ author := "a", comment := some "dup" },
                   { author := "b", comment := some "dup" }]
          prior := FileState.stored [], batch_size := 1, model_name := "m"
          limit := none, start_from := none, end_at := none }).submitted =
      [["dup"], ["dup"]] :=
  ⟨by decide,
   (c10_duplicate_fresh_texts classifyByIndex "a" "b" "dup" "positive" "negative" "m" []
      (by decide) (by decide) (by decide) (by decide) (by decide) rfl rfl).1⟩

end GeminiClassifier
